import Mathlib

/-!
# Verification of dd-trace-go span-delivery and instrumentation components

Shallow embedding of selected parts of the dd-trace-go tracing library:
the random seed source (`ddtrace/tracer` rand source), the transport layer
(modelled from the spec where only its tests are in the sources), the
graphql query tracer, the sarama partition-consumer / async-producer
wrappers, and the appsec supported-address partitioning.
-/

namespace DDTrace

/-! ## Random source (src/unnamed/part_000)

`newRandSource` attempts a cryptographically secure seed via
`cryptorand.Int`; on failure it logs and falls back to
`time.Now().UnixNano()`.  It always returns a non-nil `*randSource`
together with a `nil` error. -/

/-- The state of a `randSource`: the seed the wrapped `rand.Source` was
created from. -/
structure RandSourceState where
  seed : Int
  deriving Repr, DecidableEq

/-- The observable outcome of `newRandSource`: the returned pointer (none
models a nil pointer), the returned error, and whether the degradation
log line was emitted. -/
structure NewRandSourceResult where
  source : Option RandSourceState
  error : Option String
  loggedDegradation : Bool
  deriving Repr, DecidableEq

/-- Embedding of `newRandSource`.  `cryptoRead` is the outcome of
`cryptorand.Int(cryptorand.Reader, max)` (ok with the drawn value, or the
read error), `nowUnixNano` is `time.Now().UnixNano()`.  The Go code sets
`seed` from the crypto value when `err == nil`, otherwise logs and uses
the wall clock; in both branches it returns `&randSource{source}, nil`. -/
def newRandSource (cryptoRead : Except String Int) (nowUnixNano : Int) :
    NewRandSourceResult :=
  match cryptoRead with
  | .ok n =>
      { source := some { seed := n }, error := none, loggedDegradation := false }
  | .error _ =>
      { source := some { seed := nowUnixNano }, error := none,
        loggedDegradation := true }

/-! `randSource.Seed` is

```go
func (rs *randSource) Seed(seed int64) {
	rs.Lock()
	rs.Seed(seed)   // recursive call, NOT rs.source.Seed(seed)
	rs.Unlock()
}
```

`sync.Mutex` is not reentrant, so the recursive call blocks on `rs.Lock()`
forever.  We embed the method as a fuel-indexed executor over the lock
state that also records the events it performs; blocking (either on the
held lock or by exhausting fuel) yields `none`. -/

/-- Events the `Seed` method body can perform. -/
inductive SeedEvent where
  | acquire     -- rs.Lock() succeeds
  | release     -- rs.Unlock()
  | sourceSeed  -- rs.source.Seed(seed) — never actually reached
  deriving Repr, DecidableEq

/-- Fuel-indexed execution of `randSource.Seed`.  The argument `locked`
is whether the mutex is already held when the call starts.  Result:
`some ()` if the call returns, `none` if it blocks (a call that blocks
with any amount of fuel blocks forever), together with the list of events
performed before returning or blocking.  The body acquires the lock,
recursively invokes `Seed` (the bug: `rs.Seed`, not `rs.source.Seed`),
then releases. -/
def seedExec : Nat → Bool → Option Unit × List SeedEvent
  | 0, _ => (none, [])
  | fuel + 1, locked =>
    if locked then
      (none, [])  -- rs.Lock() on a held non-reentrant mutex: blocks forever
    else
      match seedExec fuel true with
      | (none, evs) => (none, SeedEvent.acquire :: evs)
      | (some _, evs) =>
          (some (), SeedEvent.acquire :: evs ++ [SeedEvent.release])

/-! `randSource.Int63` locks, draws from the wrapped `rand.Source`, and
unlocks.  The wrapped source is Go's `math/rand` `rngSource`, whose
`Int63` returns `int64(rng.Uint64() & rngMask)` with
`rngMask = 1<<63 - 1`. -/

/-- Modelled from the spec: the wrapped `math/rand` source (stdlib, not
part of this repository) draws a 64-bit word from its internal state and
masks it to 63 bits (`& (1<<63 - 1)`), per the `next63` contract of the
Random Source. -/
def sourceInt63 (word : Nat) : Int :=
  (word % 2 ^ 63 : Nat)

/-- Embedding of `randSource.Int63`: acquire the mutex, draw
`rs.source.Int63()`, release, return the drawn value.  `word` is the
64-bit word the underlying generator produces in this call; the returned
pair is (value, lock state after the call given lock state before). -/
def randSourceInt63 (word : Nat) (locked : Bool) : Int × Bool :=
  if locked then (0, locked)  -- would block; value unreachable
  else (sourceInt63 word, false)

/-! ## graphql Tracer.TraceQuery finish function (src/unnamed/part_001)

The finish closure returned by `TraceQuery` maps the `[]*errors.QueryError`
list to the error passed to `span.Finish(tracer.WithError(err))`:

```go
var err error
switch n := len(errs); n {
case 0:
case 1:
	err = errs[0]
default:
	err = fmt.Errorf("%s (and %d more errors)", errs[0], n-1)
}
span.Finish(tracer.WithError(err))
```

Query errors are modelled by their formatted message strings. -/

/-- Embedding of the `switch n := len(errs)` of the finish closure:
the error value handed to `span.Finish`. -/
def traceQueryFinishErr (errs : List String) : Option String :=
  match errs with
  | [] => none
  | [e] => some e
  | e :: rest =>
      some (e ++ " (and " ++ toString rest.length ++ " more errors)")

/-- The observable state of the span after the finish closure ran:
`WithError(nil)` leaves the span error unset, `WithError(err)` records
it. -/
structure FinishedQuerySpan where
  spanError : Option String
  deriving Repr, DecidableEq

/-- Embedding of the finish closure returned by `Tracer.TraceQuery`. -/
def traceQueryFinish (errs : List String) : FinishedQuerySpan :=
  { spanError := traceQueryFinishErr errs }

/-! ## Agent endpoint resolution (modelled; only TestResolveAgentAddr is
in the sources, src/checkmilestone.go lines 125–156) -/

def defaultHostname : String := "localhost"

def defaultPort : String := "8126"

def defaultURL : String := "http://localhost:8126"

/-- Modelled from the spec: `resolveAgentAddr` (the tracer's
endpoint-resolution helper, absent from the sources; only its test is
present) combines the `DD_AGENT_HOST` and `DD_TRACE_AGENT_PORT`
environment values, each independently replacing its component of the
default `localhost:8126`; `none` models an unset variable. -/
def resolveAgentAddr (envHost envPort : Option String) : String :=
  (envHost.getD defaultHostname) ++ ":" ++ (envPort.getD defaultPort)

/-- Modelled from the spec: the resolved agent URL.  The test first sets
`c.agentURL = "http://" + resolveAgentAddr()` and then applies the
`WithAgentAddr` option, which overwrites `agentURL` when present —
explicit configuration takes precedence over the environment. -/
def resolveAgentURL (agentAddrOpt envHost envPort : Option String) : String :=
  match agentAddrOpt with
  | some addr => "http://" ++ addr
  | none => "http://" ++ resolveAgentAddr envHost envPort

/-! ## Transport send outcome (modelled; only TestTransportResponse is in
the sources, src/checkmilestone.go lines 158–197) -/

/-- An agent HTTP response: status code and body. -/
structure HTTPResponse where
  status : Nat
  body : String
  deriving Repr, DecidableEq

/-- Modelled from the spec: Go's `http.StatusText` for the codes the
transport encounters (unknown codes map to the empty string, as in the
stdlib). -/
def statusText (code : Nat) : String :=
  if code = 200 then "OK"
  else if code = 400 then "Bad Request"
  else if code = 404 then "Not Found"
  else if code = 500 then "Internal Server Error"
  else ""

/-- Modelled from the spec: the outcome of `transport.send` given the
round-trip result (a transport-level error, or a response).  Any 2xx
status is success and yields the response body; any other status is a
delivery error whose message is the first (at most) 1000 bytes of the
response body followed by the status text, as `TestTransportResponse`
checks. -/
def sendOutcome (roundTrip : Except String HTTPResponse) :
    Except String String :=
  match roundTrip with
  | .error e => .error e
  | .ok r =>
      if 200 ≤ r.status ∧ r.status ≤ 299 then .ok r.body
      else .error (r.body.take 1000 ++ " (Status: " ++ statusText r.status ++ ")")

/-- Modelled from the spec: one call to `send` issues exactly one HTTP
request (the transport never retries a payload itself); the pair is
(number of requests issued by this attempt, outcome). -/
def send (roundTrip : Except String HTTPResponse) :
    Nat × Except String String :=
  (1, sendOutcome roundTrip)

/-! ## Payload encoding and the trace-count header (modelled; only
TestTraceCountHeader and helpers are in the sources,
src/checkmilestone.go lines 69–99 and 199–231) -/

/-- The tracer's `span` struct, with the fields populated by the test
helper `getTestSpan`.  `Meta`/`Metrics` are the string→string and
string→float64 maps, as association lists; metric values are modelled as
rationals. -/
structure Span where
  TraceID : Nat
  SpanID : Nat
  ParentID : Nat
  SpanType : String
  Service : String
  Name : String
  Resource : String
  Start : Int
  Duration : Int
  Meta : List (String × String)
  Metrics : List (String × ℚ)
  deriving Repr, DecidableEq

/-- Embedding of the test helper `getTestSpan`. -/
def getTestSpan : Span :=
  { TraceID := 42, SpanID := 52, ParentID := 42, SpanType := "web",
    Service := "high.throughput", Name := "sending.events",
    Resource := "SEND /data", Start := 1481215590883401105,
    Duration := 1000000000,
    Meta := [("http.host", "192.168.0.1")],
    Metrics := [("http.monitor", (4199 : ℚ) / 100)] }

/-- Embedding of the test helper `getTestTrace`: `traceN` traces of
`size` copies of the test span each. -/
def getTestTrace (traceN size : Nat) : List (List Span) :=
  List.replicate traceN (List.replicate size getTestSpan)

/-- Decimal digit character, as from the digit lookup table of Go's
`strconv`. -/
def digitChar : Nat → Char
  | 0 => '0'
  | 1 => '1'
  | 2 => '2'
  | 3 => '3'
  | 4 => '4'
  | 5 => '5'
  | 6 => '6'
  | 7 => '7'
  | 8 => '8'
  | _ => '9'

/-- Modelled from the spec: `strconv.Itoa`'s digit string for a
non-negative integer (most significant digit first). -/
def itoaChars (n : Nat) : List Char :=
  if _hn : n < 10 then [digitChar n]
  else itoaChars (n / 10) ++ [digitChar (n % 10)]
termination_by n
decreasing_by exact Nat.div_lt_self (by omega) (by norm_num)

/-- Modelled from the spec: `strconv.Itoa` for a non-negative integer. -/
def itoa (n : Nat) : String := String.mk (itoaChars n)

/-- Modelled from the spec: `strconv.Atoi` on an unsigned decimal
string — fails on an empty string or any non-digit character, otherwise
folds up the decimal value. -/
def atoiChars (cs : List Char) : Option Nat :=
  if cs.isEmpty then none
  else if cs.all Char.isDigit then
    some (cs.foldl (fun a c => a * 10 + (c.toNat - 48)) 0)
  else none

/-- Modelled from the spec: `strconv.Atoi` on an unsigned decimal string. -/
def atoi (s : String) : Option Nat := atoiChars s.data

/-- Modelled from the spec: the encoder's output — the payload carries
the encoded traces as its body plus the integer count of traces encoded
(`itemCount`). -/
structure Payload where
  body : List (List Span)
  itemCount : Nat
  deriving Repr, DecidableEq

/-- Modelled from the spec: `encode` serializes the batch and records
the count of traces encoded. -/
def encode (traces : List (List Span)) : Payload :=
  { body := traces, itemCount := traces.length }

/-- A trace-submission HTTP request: headers and the payload body. -/
structure TraceRequest where
  headers : List (String × String)
  body : List (List Span)
  deriving Repr, DecidableEq

/-- Modelled from the spec: given a payload, the transport issues exactly
one trace-submission request carrying the `X-Datadog-Trace-Count` header
(the count of traces encoded, in decimal) and the payload body. -/
def sendPayload (p : Payload) : List TraceRequest :=
  [{ headers := [("X-Datadog-Trace-Count", itoa p.itemCount),
                 ("Content-Type", "application/msgpack")],
     body := p.body }]

/-! ## Sarama partition consumer wrapper
(src/contrib/Shopify/sarama/sarama.go lines 33–86)

The relay goroutine of `WrapPartitionConsumer` ranges over the underlying
`Messages()` channel; per message it starts a span, forwards the message
on the wrapped channel, then finishes the previous message's span; when
the input channel is exhausted it finishes the last span and closes the
wrapped channel.  We embed the goroutine as the sequence of events it
performs on a finite input stream; spans are identified by the index of
the message that started them. -/

inductive ConsumerEvent (α : Type) where
  | startSpan (idx : Nat)
  | emit (msg : α)
  | finishSpan (idx : Nat)
  | closeOutput
  deriving DecidableEq

/-- The `if prev != nil { prev.Finish() }` step. -/
def prevFinish {α : Type} : Option Nat → List (ConsumerEvent α)
  | some p => [ConsumerEvent.finishSpan p]
  | none => []

/-- The `for msg := range msgs` loop of the relay goroutine plus its
epilogue: `idx` is the index of the next message, `prev` the identifier
of the still-open span of the previous message.  Per message:
`tracer.StartSpan`, `wrapped.messages <- msg`, then finish `prev`; at
the end: finish the remaining span and `close(wrapped.messages)`. -/
def consumeLoop {α : Type} : List α → Nat → Option Nat → List (ConsumerEvent α)
  | [], _, prev => prevFinish prev ++ [ConsumerEvent.closeOutput]
  | msg :: rest, idx, prev =>
      ConsumerEvent.startSpan idx :: ConsumerEvent.emit msg ::
        (prevFinish prev ++ consumeLoop rest (idx + 1) (some idx))

/-- The whole relay goroutine of `WrapPartitionConsumer` on a finite
input stream. -/
def wrapPartitionConsumer {α : Type} (msgs : List α) : List (ConsumerEvent α) :=
  consumeLoop msgs 0 none

/-- The message an event forwards on the wrapped channel, if any. -/
def emittedMsg {α : Type} : ConsumerEvent α → Option α
  | .emit m => some m
  | _ => none

/-- The span an event starts, if any. -/
def startedIdx {α : Type} : ConsumerEvent α → Option Nat
  | .startSpan i => some i
  | _ => none

/-- The span an event finishes, if any. -/
def finishedIdx {α : Type} : ConsumerEvent α → Option Nat
  | .finishSpan i => some i
  | _ => none

/-- Whether an event closes the wrapped channel. -/
def isCloseOutput {α : Type} : ConsumerEvent α → Bool
  | .closeOutput => true
  | _ => false

/-! ## appsec supported-address partitioning (src/unnamed/part_003)

`supportedAddresses` splits the rule addresses into supported-HTTP,
supported-gRPC and not-supported, testing membership with
`sort.SearchStrings` on the two address lists, which `init()` sorts. -/

/-- Go's `sort.Search` loop: `i, j := 0, n; for i < j { h := (i+j)/2;
if !f(h) { i = h + 1 } else { j = h } }; return i`. -/
def searchLoop (f : Nat → Bool) (i j : Nat) : Nat :=
  if hij : i < j then
    if f ((i + j) / 2) then searchLoop f i ((i + j) / 2)
    else searchLoop f ((i + j) / 2 + 1) j
  else i
termination_by j - i
decreasing_by all_goals omega

/-- Go's `sort.Search(n, f)`. -/
def sortSearch (n : Nat) (f : Nat → Bool) : Nat := searchLoop f 0 n

/-- Go's `sort.SearchStrings(a, x) = sort.Search(len(a),
func(i int) bool { return a[i] >= x })`. -/
def searchStrings (l : List String) (x : String) : Nat :=
  sortSearch l.length (fun i => decide (x ≤ l.getD i ""))

/-- The membership idiom of `supportedAddresses`:
`i := sort.SearchStrings(l, addr); i < len(l) && l[i] == addr`. -/
def searchFound (l : List String) (x : String) : Bool :=
  decide (searchStrings l x < l.length) && (l.getD (searchStrings l x) "" == x)

/-- The HTTP rule addresses supported by the WAF, in source order. -/
def httpAddressesOrig : List String :=
  ["server.request.uri.raw",
   "server.request.headers.no_cookies",
   "server.request.cookies",
   "server.request.query",
   "server.request.path_params",
   "server.request.body",
   "server.response.status"]

/-- The HTTP rule addresses after `init()` sorted them with
`sort.Strings`. -/
def httpAddressesList : List String :=
  ["server.request.body",
   "server.request.cookies",
   "server.request.headers.no_cookies",
   "server.request.path_params",
   "server.request.query",
   "server.request.uri.raw",
   "server.response.status"]

/-- The gRPC rule addresses supported by the WAF (already sorted in
source order, so `init()` leaves them unchanged). -/
def grpcAddressesList : List String :=
  ["grpc.server.request.message",
   "grpc.server.request.metadata"]

/-- Embedding of `supportedAddresses`: one pass over the rule addresses,
appending each to the supported-HTTP, supported-gRPC or not-supported
slice according to the two binary-search membership tests. -/
def supportedAddresses (ruleAddresses : List String) :
    List String × List String × List String :=
  ruleAddresses.foldl
    (fun acc addr =>
      if searchFound httpAddressesList addr then
        (acc.1 ++ [addr], acc.2.1, acc.2.2)
      else if searchFound grpcAddressesList addr then
        (acc.1, acc.2.1 ++ [addr], acc.2.2)
      else (acc.1, acc.2.1, acc.2.2 ++ [addr]))
    ([], [], [])

/-! ## Sarama async producer wrapper
(src/contrib/Shopify/sarama/sarama.go lines 187–255)

The relay goroutine of `WrapAsyncProducer` keeps
`spans := make(map[uint64]ddtrace.Span)`.  On an input message it starts
a producer span; with `Producer.Return.Successes` enabled it stores the
span under `span.Context().SpanID()`, otherwise it finishes the span
immediately.  On a success or error event with an extractable span
context whose spanID is in the table, it deletes the entry and finishes
that span.  Spans are modelled by the index of the input that started
them (`nextIdx`); the spanID minted for each span is carried by the
input event. -/

/-- One event received by the `select` of the relay goroutine. -/
inductive ProducerEvent where
  | input (spanID : Nat)
  | success (ctx : Option Nat)
  | failure (ctx : Option Nat)
  deriving DecidableEq

/-- Go map insert: at most one entry per key, newest wins. -/
def mapInsert (k v : Nat) (m : List (Nat × Nat)) : List (Nat × Nat) :=
  (k, v) :: m.filter (fun e => e.1 != k)

/-- Go map lookup. -/
def mapGet (k : Nat) (m : List (Nat × Nat)) : Option Nat :=
  (m.find? (fun e => e.1 == k)).map Prod.snd

/-- Go map delete. -/
def mapDelete (k : Nat) (m : List (Nat × Nat)) : List (Nat × Nat) :=
  m.filter (fun e => e.1 != k)

/-- The observable state of the relay goroutine: the correlation table
(spanID key → span index), the indices of the spans finished so far (in
finish order), and the index for the next started span. -/
structure ProducerState where
  table : List (Nat × Nat)
  finishes : List Nat
  nextIdx : Nat
  deriving DecidableEq

/-- One `select` iteration of the relay goroutine. -/
def producerStep (returnSuccesses : Bool) (st : ProducerState) :
    ProducerEvent → ProducerState
  | .input spanID =>
      if returnSuccesses then
        { st with table := mapInsert spanID st.nextIdx st.table,
                  nextIdx := st.nextIdx + 1 }
      else
        { st with finishes := st.finishes ++ [st.nextIdx],
                  nextIdx := st.nextIdx + 1 }
  | .success ctx =>
      match ctx with
      | none => st
      | some spanID =>
          match mapGet spanID st.table with
          | some idx =>
              { st with table := mapDelete spanID st.table,
                        finishes := st.finishes ++ [idx] }
          | none => st
  | .failure ctx =>
      match ctx with
      | none => st
      | some spanID =>
          match mapGet spanID st.table with
          | some idx =>
              { st with table := mapDelete spanID st.table,
                        finishes := st.finishes ++ [idx] }
          | none => st

/-- The relay goroutine run on a finite event sequence, from the empty
table. -/
def producerRun (returnSuccesses : Bool) (events : List ProducerEvent) :
    ProducerState :=
  events.foldl (producerStep returnSuccesses)
    { table := [], finishes := [], nextIdx := 0 }

/-- The correlation-table invariant: no span finished twice, table
values distinct, tabled spans not yet finished, and all span indices in
range. -/
def ProducerInv (st : ProducerState) : Prop :=
  st.finishes.Nodup ∧
  (st.table.map Prod.snd).Nodup ∧
  (∀ e ∈ st.table, e.2 ∉ st.finishes) ∧
  (∀ e ∈ st.table, e.2 < st.nextIdx) ∧
  (∀ i ∈ st.finishes, i < st.nextIdx)

end DDTrace

namespace DDTrace

/-- C1: `newRandSource` always succeeds: whatever the crypto read's
outcome, the result is a non-nil source and a nil error; on a failed
crypto read the seed is the wall-clock time and the degradation is
logged. -/
theorem newRandSource_total (cryptoRead : Except String Int) (nowUnixNano : Int) :
    (newRandSource cryptoRead nowUnixNano).source ≠ none ∧
    (newRandSource cryptoRead nowUnixNano).error = none ∧
    (∀ e, cryptoRead = .error e →
      (newRandSource cryptoRead nowUnixNano).source =
        some { seed := nowUnixNano } ∧
      (newRandSource cryptoRead nowUnixNano).loggedDegradation = true) := by
  cases cryptoRead <;> simp [newRandSource]

/-- C2: `randSource.Seed` never returns — the recursive call deadlocks on
the non-reentrant mutex — and it never reseeds the underlying
`rand.Source` (no `sourceSeed` event ever occurs). -/
theorem seed_deadlocks (fuel : Nat) (locked : Bool) :
    (seedExec fuel locked).1 = none ∧
    SeedEvent.sourceSeed ∉ (seedExec fuel locked).2 := by
  induction fuel generalizing locked with
  | zero => simp [seedExec]
  | succ n ih =>
    rcases locked with _ | _
    · have h := ih true
      rcases hrec : seedExec n true with ⟨r, evs⟩
      rw [hrec] at h
      obtain ⟨h1, h2⟩ := h
      subst h1
      simp [seedExec, hrec]
      exact h2
    · simp [seedExec]

/-- C8: every value returned by `randSource.Int63` from an unlocked
source is a non-negative 63-bit integer. -/
theorem int63_range (word : Nat) :
    0 ≤ (randSourceInt63 word false).1 ∧
    (randSourceInt63 word false).1 < 2 ^ 63 := by
  constructor
  · simp only [randSourceInt63, sourceInt63, if_neg Bool.false_ne_true]
    exact_mod_cast Nat.zero_le (word % 2 ^ 63)
  · simp only [randSourceInt63, sourceInt63, if_neg Bool.false_ne_true]
    exact_mod_cast Nat.mod_lt word (by norm_num)

/-- C10: the finish function of `TraceQuery` finishes the span with no
error for an empty error list, with exactly the single error for a
one-element list, with one aggregated error (first error plus the count
of the remaining ones) for longer lists; the span carries an error iff
the list is non-empty. -/
theorem traceQuery_error_mapping (errs : List String) :
    (traceQueryFinish []).spanError = none ∧
    (∀ e, (traceQueryFinish [e]).spanError = some e) ∧
    (∀ e f rest, (traceQueryFinish (e :: f :: rest)).spanError =
      some (e ++ " (and " ++ toString (rest.length + 1) ++ " more errors)")) ∧
    ((traceQueryFinish errs).spanError ≠ none ↔ errs ≠ []) := by
  refine ⟨rfl, fun e => rfl, fun e f rest => rfl, ?_⟩
  match errs with
  | [] => simp [traceQueryFinish, traceQueryFinishErr]
  | [e] => simp [traceQueryFinish, traceQueryFinishErr]
  | e :: f :: rest => simp [traceQueryFinish, traceQueryFinishErr]

/-- C5: endpoint resolution precedence — an explicit agent-address option
determines the URL whenever present; otherwise the environment host and
port each independently replace their component of the default
`localhost:8126`; with neither set, the default URL results. -/
theorem resolveAgentURL_precedence (envHost envPort : Option String) :
    (∀ a, resolveAgentURL (some a) envHost envPort = "http://" ++ a) ∧
    (∀ h p, resolveAgentURL none (some h) (some p) = "http://" ++ h ++ ":" ++ p) ∧
    (∀ h, resolveAgentURL none (some h) none =
      "http://" ++ h ++ ":" ++ defaultPort) ∧
    (∀ p, resolveAgentURL none none (some p) =
      "http://" ++ defaultHostname ++ ":" ++ p) ∧
    resolveAgentURL none none none = defaultURL := by
  refine ⟨fun a => rfl, fun h p => ?_, fun h => ?_, fun p => ?_, rfl⟩ <;>
    simp [resolveAgentURL, resolveAgentAddr, String.append_assoc]

/-- C3: `send` issues exactly one request and succeeds exactly on a 2xx
status; a non-2xx response yields a delivery error made of at most the
first 1000 bytes of the body followed by the status text, and a
transport-level error is surfaced as-is. -/
theorem send_success_iff_2xx (roundTrip : Except String HTTPResponse) :
    (send roundTrip).1 = 1 ∧
    (∀ r : HTTPResponse, ((send (.ok r)).2 = .ok r.body ↔
      200 ≤ r.status ∧ r.status ≤ 299)) ∧
    (∀ r : HTTPResponse, ¬(200 ≤ r.status ∧ r.status ≤ 299) →
      (send (.ok r)).2 =
        .error (r.body.take 1000 ++ " (Status: " ++ statusText r.status ++ ")")) ∧
    (∀ e, (send (.error e : Except String HTTPResponse)).2 = .error e) := by
  refine ⟨rfl, fun r => ?_, fun r hr => ?_, fun e => rfl⟩
  · by_cases h : 200 ≤ r.status ∧ r.status ≤ 299
    · simp [send, sendOutcome, h]
    · simp [send, sendOutcome, h]
  · simp [send, sendOutcome, hr]

/-- Every digit character is a decimal digit. -/
theorem digitChar_isDigit (d : Nat) : (digitChar d).isDigit = true := by
  match d with
  | 0 | 1 | 2 | 3 | 4 | 5 | 6 | 7 | 8 => rfl
  | n + 9 => rfl

/-- The code of `digitChar d` is `48 + d` for digits. -/
theorem digitChar_toNat (d : Nat) (hd : d < 10) :
    (digitChar d).toNat = 48 + d := by
  interval_cases d <;> rfl

/-- The digit string of `n` is never empty. -/
theorem itoaChars_ne_nil (n : Nat) : itoaChars n ≠ [] := by
  rw [itoaChars]
  split <;> simp

/-- Every character of the digit string is a decimal digit. -/
theorem itoaChars_digits (n : Nat) : (itoaChars n).all Char.isDigit = true := by
  induction n using Nat.strong_induction_on with
  | _ n ih =>
    rw [itoaChars]
    split
    next => simp [digitChar_isDigit]
    next h =>
      have hlt : n / 10 < n := Nat.div_lt_self (by omega) (by norm_num)
      simp [List.all_append, ih _ hlt, digitChar_isDigit]

/-- Folding the decimal digits of `n` over an accumulator recovers `n`. -/
theorem itoaChars_foldl (n : Nat) : ∀ acc : Nat,
    (itoaChars n).foldl (fun a c => a * 10 + (c.toNat - 48)) acc =
      acc * 10 ^ (itoaChars n).length + n := by
  induction n using Nat.strong_induction_on with
  | _ n ih =>
    intro acc
    rw [itoaChars]
    split
    next h =>
      simp [List.foldl, digitChar_toNat n h]
    next h =>
      have hlt : n / 10 < n := Nat.div_lt_self (by omega) (by norm_num)
      rw [List.foldl_append, ih _ hlt acc]
      have hm : n % 10 < 10 := Nat.mod_lt n (by norm_num)
      simp only [List.foldl, digitChar_toNat _ hm, List.length_append,
        List.length_singleton]
      rw [pow_succ]
      have e : acc * (10 ^ (itoaChars (n / 10)).length * 10) =
          acc * 10 ^ (itoaChars (n / 10)).length * 10 := by ring
      rw [e]
      generalize acc * 10 ^ (itoaChars (n / 10)).length = A
      omega

/-- `strconv.Atoi` inverts `strconv.Itoa` on naturals. -/
theorem atoi_itoa (n : Nat) : atoi (itoa n) = some n := by
  have hne : (itoaChars n).isEmpty = false := by
    rw [List.isEmpty_eq_false_iff_exists_mem]
    rcases List.exists_mem_of_ne_nil _ (itoaChars_ne_nil n) with ⟨c, hc⟩
    exact ⟨c, hc⟩
  show atoiChars (itoaChars n) = some n
  rw [atoiChars, hne, if_neg (by simp), itoaChars_digits n, if_pos rfl,
    itoaChars_foldl n 0]
  simp

/-- C4: the encoded payload of a non-empty batch yields exactly one
trace-submission request, whose `X-Datadog-Trace-Count` header parses as
a non-zero integer equal to the number of traces in the payload body. -/
theorem traceCountHeader (traces : List (List Span)) (h : traces ≠ []) :
    (sendPayload (encode traces)).length = 1 ∧
    ∀ req ∈ sendPayload (encode traces),
      ∃ v, req.headers.lookup "X-Datadog-Trace-Count" = some v ∧
        atoi v = some req.body.length ∧ req.body.length ≠ 0 := by
  refine ⟨rfl, ?_⟩
  intro req hreq
  simp only [sendPayload, encode, List.mem_singleton] at hreq
  subst hreq
  refine ⟨itoa traces.length, ?_, ?_, ?_⟩
  · simp [List.lookup]
  · simpa using atoi_itoa traces.length
  · simpa using h

/-- Witness for C4 at the concrete test batch `getTestTrace 10 1`. -/
theorem traceCountHeader_witness :
    getTestTrace 10 1 ≠ [] ∧
    ((sendPayload (encode (getTestTrace 10 1))).length = 1 ∧
     ∀ req ∈ sendPayload (encode (getTestTrace 10 1)),
       ∃ v, req.headers.lookup "X-Datadog-Trace-Count" = some v ∧
         atoi v = some req.body.length ∧ req.body.length ≠ 0) :=
  ⟨by simp [getTestTrace], traceCountHeader (getTestTrace 10 1) (by simp [getTestTrace])⟩

/-- `prevFinish` forwards no message. -/
theorem prevFinish_emitted (α : Type) (prev : Option Nat) :
    (prevFinish (α := α) prev).filterMap emittedMsg = [] := by
  cases prev <;> rfl

/-- `prevFinish` starts no span. -/
theorem prevFinish_started (α : Type) (prev : Option Nat) :
    (prevFinish (α := α) prev).filterMap startedIdx = [] := by
  cases prev <;> rfl

/-- `prevFinish` finishes exactly the previous span, if any. -/
theorem prevFinish_finished (α : Type) (prev : Option Nat) :
    (prevFinish (α := α) prev).filterMap finishedIdx = prev.toList := by
  cases prev <;> rfl

/-- `prevFinish` does not close the output channel. -/
theorem prevFinish_close (α : Type) (prev : Option Nat) :
    (prevFinish (α := α) prev).countP isCloseOutput = 0 := by
  cases prev <;> rfl

/-- The relay loop forwards exactly the input messages, in order. -/
theorem consumeLoop_emitted {α : Type} (msgs : List α) :
    ∀ (idx : Nat) (prev : Option Nat),
      (consumeLoop msgs idx prev).filterMap emittedMsg = msgs := by
  induction msgs with
  | nil =>
    intro idx prev
    simp [consumeLoop, List.filterMap_append, prevFinish_emitted, emittedMsg]
  | cons m rest ih =>
    intro idx prev
    simp [consumeLoop, List.filterMap_cons, List.filterMap_append,
      prevFinish_emitted, ih, emittedMsg, startedIdx]

/-- The relay loop starts one span per message: span `idx + k` for the
`k`-th message. -/
theorem consumeLoop_started {α : Type} (msgs : List α) :
    ∀ (idx : Nat) (prev : Option Nat),
      (consumeLoop msgs idx prev).filterMap startedIdx =
        List.range' idx msgs.length := by
  induction msgs with
  | nil =>
    intro idx prev
    simp [consumeLoop, List.filterMap_append, prevFinish_started, startedIdx]
  | cons m rest ih =>
    intro idx prev
    simp [consumeLoop, List.filterMap_cons, List.filterMap_append,
      prevFinish_started, ih, startedIdx, emittedMsg, List.range'_succ]

/-- The relay loop finishes the carried-over span and every span it
starts. -/
theorem consumeLoop_finished {α : Type} (msgs : List α) :
    ∀ (idx : Nat) (prev : Option Nat),
      (consumeLoop msgs idx prev).filterMap finishedIdx =
        prev.toList ++ List.range' idx msgs.length := by
  induction msgs with
  | nil =>
    intro idx prev
    simp [consumeLoop, List.filterMap_append, prevFinish_finished, finishedIdx]
  | cons m rest ih =>
    intro idx prev
    simp [consumeLoop, List.filterMap_cons, List.filterMap_append,
      prevFinish_finished, ih, finishedIdx, startedIdx, emittedMsg,
      List.range'_succ]

/-- The relay loop closes the output exactly once, as its last event. -/
theorem consumeLoop_close {α : Type} (msgs : List α) :
    ∀ (idx : Nat) (prev : Option Nat),
      ∃ l, consumeLoop msgs idx prev = l ++ [ConsumerEvent.closeOutput] ∧
        l.countP isCloseOutput = 0 := by
  induction msgs with
  | nil =>
    intro idx prev
    exact ⟨prevFinish prev, rfl, prevFinish_close α prev⟩
  | cons m rest ih =>
    intro idx prev
    obtain ⟨l, hl, hcount⟩ := ih (idx + 1) (some idx)
    refine ⟨ConsumerEvent.startSpan idx :: ConsumerEvent.emit m ::
      (prevFinish prev ++ l), ?_, ?_⟩
    · simp [consumeLoop, hl]
    · simp [List.countP_cons, List.countP_append, prevFinish_close α prev,
        hcount, isCloseOutput]

/-- C6: the wrapped partition consumer forwards exactly the input
message sequence in order, starts one span per message, finishes every
started span, and closes its output channel exactly once, as the final
event after the input is exhausted. -/
theorem wrapPartitionConsumer_relay (α : Type) (msgs : List α) :
    (wrapPartitionConsumer msgs).filterMap emittedMsg = msgs ∧
    (wrapPartitionConsumer msgs).filterMap startedIdx =
      List.range msgs.length ∧
    (wrapPartitionConsumer msgs).filterMap finishedIdx =
      List.range msgs.length ∧
    ∃ l, wrapPartitionConsumer msgs = l ++ [ConsumerEvent.closeOutput] ∧
      l.countP isCloseOutput = 0 := by
  refine ⟨consumeLoop_emitted msgs 0 none, ?_, ?_, consumeLoop_close msgs 0 none⟩
  · rw [wrapPartitionConsumer, consumeLoop_started msgs 0 none,
      List.range_eq_range']
  · rw [wrapPartitionConsumer, consumeLoop_finished msgs 0 none,
      List.range_eq_range']
    rfl

/-- Go's binary-search loop returns an index `r ∈ [i, j]` with `f r`
when `r < j` and `¬ f (r - 1)` when `i < r`. -/
theorem searchLoop_spec (f : Nat → Bool) :
    ∀ (k i j : Nat), j - i ≤ k → i ≤ j →
      i ≤ searchLoop f i j ∧ searchLoop f i j ≤ j ∧
      (searchLoop f i j < j → f (searchLoop f i j) = true) ∧
      (i < searchLoop f i j → f (searchLoop f i j - 1) = false) := by
  intro k
  induction k with
  | zero =>
    intro i j hk hij
    have hji : ¬ i < j := by omega
    rw [searchLoop, dif_neg hji]
    exact ⟨Nat.le_refl i, hij, fun h => absurd h (by omega),
      fun h => absurd h (by omega)⟩
  | succ k ih =>
    intro i j hk hij
    rw [searchLoop]
    by_cases hlt : i < j
    · rw [dif_pos hlt]
      by_cases hf : f ((i + j) / 2)
      · rw [if_pos hf]
        obtain ⟨h1, h2, h3, h4⟩ := ih i ((i + j) / 2) (by omega) (by omega)
        refine ⟨h1, by omega, ?_, h4⟩
        intro hrj
        rcases Nat.lt_or_ge (searchLoop f i ((i + j) / 2)) ((i + j) / 2) with hc | hc
        · exact h3 hc
        · have he : searchLoop f i ((i + j) / 2) = (i + j) / 2 := by omega
          rw [he]
          exact hf
      · rw [if_neg hf]
        obtain ⟨h1, h2, h3, h4⟩ := ih ((i + j) / 2 + 1) j (by omega) (by omega)
        refine ⟨by omega, h2, h3, ?_⟩
        intro hir
        rcases Nat.lt_or_ge ((i + j) / 2 + 1)
            (searchLoop f ((i + j) / 2 + 1) j) with hc | hc
        · exact h4 hc
        · have he : searchLoop f ((i + j) / 2 + 1) j = (i + j) / 2 + 1 := by
            omega
          rw [he, Nat.add_sub_cancel]
          exact Bool.eq_false_iff.mpr hf
    · rw [dif_neg hlt]
      exact ⟨Nat.le_refl i, hij, fun h => absurd h (by omega),
        fun h => absurd h (by omega)⟩

/-- On a sorted list, the `SearchStrings`-based membership idiom decides
list membership. -/
theorem searchFound_iff_mem (l : List String) (x : String)
    (hs : l.Sorted (· ≤ ·)) : searchFound l x = true ↔ x ∈ l := by
  obtain ⟨h1, h2, h3, h4⟩ := searchLoop_spec
    (fun i => decide (x ≤ l.getD i "")) l.length 0 l.length
    (by omega) (by omega)
  constructor
  · intro hfound
    rw [searchFound, Bool.and_eq_true, decide_eq_true_iff, beq_iff_eq] at hfound
    obtain ⟨hr, hx⟩ := hfound
    have : l.getD (searchStrings l x) "" ∈ l := by
      rw [List.getD_eq_getElem?_getD, List.getElem?_eq_getElem hr]
      exact List.getElem_mem hr
    rwa [hx] at this
  · intro hmem
    obtain ⟨⟨t, ht⟩, hget⟩ := List.mem_iff_get.mp hmem
    have h2' : searchStrings l x ≤ l.length := h2
    have h3' : searchStrings l x < l.length →
        decide (x ≤ l.getD (searchStrings l x) "") = true := h3
    have h4' : 0 < searchStrings l x →
        decide (x ≤ l.getD (searchStrings l x - 1) "") = false := h4
    have hgetD : ∀ (k : Nat) (hk : k < l.length),
        l.getD k "" = l.get ⟨k, hk⟩ := by
      intro k hk
      rw [List.getD_eq_getElem?_getD, List.getElem?_eq_getElem hk]
      rfl
    have hrlt : searchStrings l x < l.length := by
      by_contra hge
      have hr : searchStrings l x = l.length := by omega
      have hfail := h4' (by omega)
      rw [decide_eq_false_iff_not] at hfail
      apply hfail
      rw [hr, hgetD (l.length - 1) (by omega)]
      have hmono := hs.rel_get_of_le (a := ⟨t, ht⟩)
        (b := ⟨l.length - 1, by omega⟩) (by simp [Fin.le_def]; omega)
      rwa [hget] at hmono
    have hfr := h3' hrlt
    rw [decide_eq_true_iff, hgetD _ hrlt] at hfr
    have hle : l.get ⟨searchStrings l x, hrlt⟩ ≤ x := by
      rcases le_or_lt (searchStrings l x) t with hc | hc
      · have hmono := hs.rel_get_of_le (a := ⟨searchStrings l x, hrlt⟩)
          (b := ⟨t, ht⟩) (by simpa [Fin.le_def] using hc)
        rwa [hget] at hmono
      · exfalso
        have hfail := h4' (by omega)
        rw [decide_eq_false_iff_not] at hfail
        apply hfail
        rw [hgetD (searchStrings l x - 1) (by omega)]
        have hmono := hs.rel_get_of_le (a := ⟨t, ht⟩)
          (b := ⟨searchStrings l x - 1, by omega⟩) (by simp [Fin.le_def]; omega)
        rwa [hget] at hmono
    have heq : l.get ⟨searchStrings l x, hrlt⟩ = x := le_antisymm hle hfr
    rw [searchFound, Bool.and_eq_true, decide_eq_true_iff, beq_iff_eq]
    exact ⟨hrlt, by rw [hgetD _ hrlt, heq]⟩

/-- Two booleans agreeing as propositions are equal. -/
theorem boolEqOfIff {x y : Bool} (h : x = true ↔ y = true) : x = y := by
  cases x <;> cases y <;> simp_all

/-- The sorted HTTP address list is sorted. -/
theorem httpAddressesList_sorted : List.Sorted (· ≤ ·) httpAddressesList := by
  rw [List.Sorted, ← List.chain'_iff_pairwise]
  simp only [httpAddressesList, List.chain'_cons, List.chain'_singleton, and_true]
  refine ⟨?_, ?_, ?_, ?_, ?_, ?_⟩ <;> (rw [String.le_iff_toList_le]; decide)

/-- The gRPC address list is sorted. -/
theorem grpcAddressesList_sorted : List.Sorted (· ≤ ·) grpcAddressesList := by
  rw [List.Sorted, ← List.chain'_iff_pairwise]
  simp only [grpcAddressesList, List.chain'_cons, List.chain'_singleton, and_true]
  rw [String.le_iff_toList_le]; decide

/-- `init()`'s sorting did not change the set of HTTP addresses. -/
theorem httpAddressesList_mem (a : String) :
    a ∈ httpAddressesList ↔ a ∈ httpAddressesOrig := by
  simp only [httpAddressesList, httpAddressesOrig, List.mem_cons,
    List.not_mem_nil, or_false]
  tauto

/-- No address is both a supported HTTP and a supported gRPC address. -/
theorem http_grpc_disjoint : ∀ a ∈ httpAddressesOrig, a ∉ grpcAddressesList := by
  decide

/-- The branch predicates of `supportedAddresses`, as run on each input
address. -/
def isHTTPAddr (a : String) : Bool := searchFound httpAddressesList a

/-- Second branch: not HTTP, and found among the gRPC addresses. -/
def isGRPCAddr (a : String) : Bool :=
  !searchFound httpAddressesList a && searchFound grpcAddressesList a

/-- Third branch: found in neither list. -/
def isUnsupportedAddr (a : String) : Bool :=
  !searchFound httpAddressesList a && !searchFound grpcAddressesList a

/-- The `SearchStrings` idiom on the sorted HTTP list decides membership
in the original HTTP address set. -/
theorem searchFound_http (a : String) :
    searchFound httpAddressesList a = decide (a ∈ httpAddressesOrig) :=
  boolEqOfIff <| by
    rw [searchFound_iff_mem _ a httpAddressesList_sorted,
      httpAddressesList_mem, decide_eq_true_iff]

/-- The `SearchStrings` idiom on the gRPC list decides membership. -/
theorem searchFound_grpc (a : String) :
    searchFound grpcAddressesList a = decide (a ∈ grpcAddressesList) :=
  boolEqOfIff <| by
    rw [searchFound_iff_mem _ a grpcAddressesList_sorted, decide_eq_true_iff]

/-- The fold of `supportedAddresses` distributes into three filters. -/
theorem supportedAddresses_foldl (l : List String) :
    ∀ h g ns : List String,
      l.foldl
        (fun acc addr =>
          if searchFound httpAddressesList addr then
            (acc.1 ++ [addr], acc.2.1, acc.2.2)
          else if searchFound grpcAddressesList addr then
            (acc.1, acc.2.1 ++ [addr], acc.2.2)
          else (acc.1, acc.2.1, acc.2.2 ++ [addr])) (h, g, ns) =
      (h ++ l.filter isHTTPAddr, g ++ l.filter isGRPCAddr,
       ns ++ l.filter isUnsupportedAddr) := by
  induction l with
  | nil => intro h g ns; simp
  | cons a l ih =>
    intro h g ns
    by_cases h1 : searchFound httpAddressesList a
    · simp only [List.foldl_cons, if_pos h1, ih, List.filter_cons,
        isHTTPAddr, isGRPCAddr, isUnsupportedAddr, h1]
      simp
    · by_cases h2 : searchFound grpcAddressesList a
      · simp only [List.foldl_cons, if_neg h1, if_pos h2, ih, List.filter_cons,
          isHTTPAddr, isGRPCAddr, isUnsupportedAddr, h1, h2]
        simp [Bool.eq_false_iff.mpr h1]
      · simp only [List.foldl_cons, if_neg h1, if_neg h2, ih, List.filter_cons,
          isHTTPAddr, isGRPCAddr, isUnsupportedAddr, h1, h2]
        simp [Bool.eq_false_iff.mpr h1, Bool.eq_false_iff.mpr h2]

/-- C9: `supportedAddresses` partitions its input, preserving relative
order: the three outputs are exactly the in-order sublists of addresses
that are supported HTTP addresses, supported gRPC addresses, and
neither; every occurrence of an input element lands in exactly one
output list. -/
theorem supportedAddresses_partition (ruleAddresses : List String) :
    supportedAddresses ruleAddresses =
      (ruleAddresses.filter (fun a => decide (a ∈ httpAddressesOrig)),
       ruleAddresses.filter (fun a => decide (a ∈ grpcAddressesList)),
       ruleAddresses.filter
         (fun a => decide (a ∉ httpAddressesOrig ∧ a ∉ grpcAddressesList))) ∧
    ∀ a, ruleAddresses.count a =
        (supportedAddresses ruleAddresses).1.count a +
        (supportedAddresses ruleAddresses).2.1.count a +
        (supportedAddresses ruleAddresses).2.2.count a := by
  have hhttp : isHTTPAddr = fun a => decide (a ∈ httpAddressesOrig) :=
    funext fun a => searchFound_http a
  have hgrpc : isGRPCAddr = fun a => decide (a ∈ grpcAddressesList) := by
    funext a
    rw [isGRPCAddr, searchFound_http, searchFound_grpc]
    by_cases hg : a ∈ grpcAddressesList
    · have hh : a ∉ httpAddressesOrig := fun hh => http_grpc_disjoint a hh hg
      simp [hg, hh]
    · simp [hg]
  have hnone : isUnsupportedAddr =
      fun a => decide (a ∉ httpAddressesOrig ∧ a ∉ grpcAddressesList) := by
    funext a
    rw [isUnsupportedAddr, searchFound_http, searchFound_grpc]
    by_cases hh : a ∈ httpAddressesOrig <;> by_cases hg : a ∈ grpcAddressesList <;>
      simp [hh, hg]
  have htriple : supportedAddresses ruleAddresses =
      (ruleAddresses.filter (fun a => decide (a ∈ httpAddressesOrig)),
       ruleAddresses.filter (fun a => decide (a ∈ grpcAddressesList)),
       ruleAddresses.filter
         (fun a => decide (a ∉ httpAddressesOrig ∧ a ∉ grpcAddressesList))) := by
    rw [supportedAddresses, supportedAddresses_foldl ruleAddresses [] [] [],
      ← hhttp, ← hgrpc, ← hnone]
    simp
  refine ⟨htriple, fun a => ?_⟩
  rw [htriple]
  show List.count a ruleAddresses =
      List.count a (ruleAddresses.filter
        (fun a => decide (a ∈ httpAddressesOrig))) +
      List.count a (ruleAddresses.filter
        (fun a => decide (a ∈ grpcAddressesList))) +
      List.count a (ruleAddresses.filter
        (fun a => decide (a ∉ httpAddressesOrig ∧ a ∉ grpcAddressesList)))
  by_cases hh : a ∈ httpAddressesOrig
  · have hg : a ∉ grpcAddressesList := http_grpc_disjoint a hh
    have e1 : List.count a (ruleAddresses.filter
        (fun a => decide (a ∈ httpAddressesOrig))) = List.count a ruleAddresses :=
      List.count_filter (by simpa using hh)
    have e2 : List.count a (ruleAddresses.filter
        (fun a => decide (a ∈ grpcAddressesList))) = 0 :=
      List.count_eq_zero.mpr fun hmf =>
        hg (by simpa using (List.mem_filter.mp hmf).2)
    have e3 : List.count a (ruleAddresses.filter
        (fun a => decide (a ∉ httpAddressesOrig ∧ a ∉ grpcAddressesList))) = 0 :=
      List.count_eq_zero.mpr fun hmf => by
        have h2 := (List.mem_filter.mp hmf).2
        rw [decide_eq_true_iff] at h2
        exact h2.1 hh
    rw [e1, e2, e3]
    omega
  · by_cases hg : a ∈ grpcAddressesList
    · have e1 : List.count a (ruleAddresses.filter
          (fun a => decide (a ∈ httpAddressesOrig))) = 0 :=
        List.count_eq_zero.mpr fun hmf =>
          hh (by simpa using (List.mem_filter.mp hmf).2)
      have e2 : List.count a (ruleAddresses.filter
          (fun a => decide (a ∈ grpcAddressesList))) = List.count a ruleAddresses :=
        List.count_filter (by simpa using hg)
      have e3 : List.count a (ruleAddresses.filter
          (fun a => decide (a ∉ httpAddressesOrig ∧ a ∉ grpcAddressesList))) = 0 :=
        List.count_eq_zero.mpr fun hmf => by
          have h2 := (List.mem_filter.mp hmf).2
          rw [decide_eq_true_iff] at h2
          exact h2.2 hg
      rw [e1, e2, e3]
      omega
    · have e1 : List.count a (ruleAddresses.filter
          (fun a => decide (a ∈ httpAddressesOrig))) = 0 :=
        List.count_eq_zero.mpr fun hmf =>
          hh (by simpa using (List.mem_filter.mp hmf).2)
      have e2 : List.count a (ruleAddresses.filter
          (fun a => decide (a ∈ grpcAddressesList))) = 0 :=
        List.count_eq_zero.mpr fun hmf =>
          hg (by simpa using (List.mem_filter.mp hmf).2)
      have e3 : List.count a (ruleAddresses.filter
          (fun a => decide (a ∉ httpAddressesOrig ∧ a ∉ grpcAddressesList))) =
          List.count a ruleAddresses :=
        List.count_filter (by simp [hh, hg])
      rw [e1, e2, e3]
      omega

/-- Inserting under a key makes lookup of that key find the new value. -/
theorem mapGet_mapInsert (k v : Nat) (m : List (Nat × Nat)) :
    mapGet k (mapInsert k v m) = some v := by
  simp [mapGet, mapInsert]

/-- Deleting a key removes it from lookup. -/
theorem mapGet_mapDelete (k : Nat) (m : List (Nat × Nat)) :
    mapGet k (mapDelete k m) = none := by
  rw [mapGet, Option.map_eq_none', List.find?_eq_none]
  intro e he
  have h2 := (List.mem_filter.mp he).2
  simpa using h2

/-- After an insert there is exactly one entry under the key. -/
theorem mapInsert_filter_key (k v : Nat) (m : List (Nat × Nat)) :
    (mapInsert k v m).filter (fun e => e.1 == k) = [(k, v)] := by
  simp only [mapInsert, List.filter_cons]
  rw [if_pos (by simp), List.filter_filter]
  have : (m.filter fun a => a.1 == k && a.1 != k) = [] := by
    rw [List.filter_eq_nil_iff]
    intro e he
    simp
  rw [this]

/-- A successful lookup names an entry of the table. -/
theorem mapGet_some (k v : Nat) (m : List (Nat × Nat))
    (h : mapGet k m = some v) : ∃ e ∈ m, e.1 = k ∧ e.2 = v := by
  rw [mapGet] at h
  rcases he : m.find? (fun e => e.1 == k) with _ | e
  · rw [he] at h
    simp at h
  · rw [he] at h
    simp only [Option.map_some', Option.some.injEq] at h
    have hmem := List.mem_of_find?_eq_some he
    have hp := List.find?_some he
    simp only [beq_iff_eq] at hp
    exact ⟨e, hmem, hp, h⟩

/-- One relay iteration preserves the correlation-table invariant. -/
theorem producerStep_inv (b : Bool) (st : ProducerState) (ev : ProducerEvent)
    (h : ProducerInv st) : ProducerInv (producerStep b st ev) := by
  obtain ⟨hfin, hvals, hdisj, htb, hfb⟩ := h
  unfold ProducerInv
  cases ev with
  | input sid =>
    simp only [producerStep]
    split
    · dsimp only
      refine ⟨hfin, ?_, ?_, ?_, ?_⟩
      · simp only [mapInsert, List.map_cons, List.nodup_cons]
        refine ⟨?_, List.Nodup.sublist ((List.filter_sublist _).map _) hvals⟩
        intro hmem
        obtain ⟨e, he, hsnd⟩ := List.mem_map.mp hmem
        have := htb e (List.mem_of_mem_filter he)
        omega
      · intro e he
        rcases List.mem_cons.mp he with rfl | he'
        · intro hmem
          have := hfb _ hmem
          dsimp only at this
          omega
        · exact hdisj e (List.mem_of_mem_filter he')
      · intro e he
        rcases List.mem_cons.mp he with rfl | he'
        · dsimp only
          omega
        · have := htb e (List.mem_of_mem_filter he')
          omega
      · intro i hi
        have := hfb i hi
        omega
    · dsimp only
      refine ⟨?_, hvals, ?_, ?_, ?_⟩
      · rw [List.nodup_append]
        refine ⟨hfin, List.nodup_singleton _, ?_⟩
        intro i hi hj
        have hj' := List.mem_singleton.mp hj
        have := hfb i hi
        omega
      · intro e he hmem
        rcases List.mem_append.mp hmem with hm | hm
        · exact hdisj e he hm
        · have h1 := htb e he
          have h2 := List.mem_singleton.mp hm
          omega
      · intro e he
        have := htb e he
        omega
      · intro i hi
        rcases List.mem_append.mp hi with hm | hm
        · have := hfb i hm
          omega
        · have := List.mem_singleton.mp hm
          omega
  | success ctx =>
    rcases ctx with _ | sid
    · exact ⟨hfin, hvals, hdisj, htb, hfb⟩
    · simp only [producerStep]
      rcases hget : mapGet sid st.table with _ | idx
      · exact ⟨hfin, hvals, hdisj, htb, hfb⟩
      · dsimp only
        obtain ⟨e₀, he₀, hk₀, hv₀⟩ := mapGet_some sid idx st.table hget
        refine ⟨?_, ?_, ?_, ?_, ?_⟩
        · rw [List.nodup_append]
          refine ⟨hfin, List.nodup_singleton _, ?_⟩
          intro i hi hj
          have hj' := List.mem_singleton.mp hj
          subst hj'
          exact hdisj e₀ he₀ (hv₀ ▸ hi)
        · exact List.Nodup.sublist ((List.filter_sublist _).map _) hvals
        · intro e he hmem
          have hef := List.mem_filter.mp he
          rcases List.mem_append.mp hmem with hm | hm
          · exact hdisj e hef.1 hm
          · have hm' := List.mem_singleton.mp hm
            have heq := List.inj_on_of_nodup_map hvals hef.1 he₀
              (show e.2 = e₀.2 by rw [hm', hv₀])
            have hne := hef.2
            rw [heq] at hne
            simp [hk₀] at hne
        · intro e he
          exact htb e (List.mem_of_mem_filter he)
        · intro i hi
          rcases List.mem_append.mp hi with hm | hm
          · exact hfb i hm
          · have hm' := List.mem_singleton.mp hm
            have := htb e₀ he₀
            omega
  | failure ctx =>
    rcases ctx with _ | sid
    · exact ⟨hfin, hvals, hdisj, htb, hfb⟩
    · simp only [producerStep]
      rcases hget : mapGet sid st.table with _ | idx
      · exact ⟨hfin, hvals, hdisj, htb, hfb⟩
      · dsimp only
        obtain ⟨e₀, he₀, hk₀, hv₀⟩ := mapGet_some sid idx st.table hget
        refine ⟨?_, ?_, ?_, ?_, ?_⟩
        · rw [List.nodup_append]
          refine ⟨hfin, List.nodup_singleton _, ?_⟩
          intro i hi hj
          have hj' := List.mem_singleton.mp hj
          subst hj'
          exact hdisj e₀ he₀ (hv₀ ▸ hi)
        · exact List.Nodup.sublist ((List.filter_sublist _).map _) hvals
        · intro e he hmem
          have hef := List.mem_filter.mp he
          rcases List.mem_append.mp hmem with hm | hm
          · exact hdisj e hef.1 hm
          · have hm' := List.mem_singleton.mp hm
            have heq := List.inj_on_of_nodup_map hvals hef.1 he₀
              (show e.2 = e₀.2 by rw [hm', hv₀])
            have hne := hef.2
            rw [heq] at hne
            simp [hk₀] at hne
        · intro e he
          exact htb e (List.mem_of_mem_filter he)
        · intro i hi
          rcases List.mem_append.mp hi with hm | hm
          · exact hfb i hm
          · have hm' := List.mem_singleton.mp hm
            have := htb e₀ he₀
            omega

/-- The invariant holds after any event sequence. -/
theorem producerRun_inv (b : Bool) (events : List ProducerEvent) :
    ProducerInv (producerRun b events) := by
  have hgen : ∀ st, ProducerInv st →
      ProducerInv (events.foldl (producerStep b) st) := by
    induction events with
    | nil => intro st h; exact h
    | cons e es ih => intro st h; exact ih _ (producerStep_inv b st e h)
  exact hgen _ (by simp [ProducerInv])

/-- With success returns disabled the table never gains an entry. -/
theorem producerStep_false_table (st : ProducerState) (ev : ProducerEvent)
    (h : st.table = []) : (producerStep false st ev).table = [] := by
  cases ev with
  | input sid => simpa [producerStep] using h
  | success ctx =>
    rcases ctx with _ | sid
    · exact h
    · simp only [producerStep, h, mapGet, List.find?_nil, Option.map_none']
  | failure ctx =>
    rcases ctx with _ | sid
    · exact h
    · simp only [producerStep, h, mapGet, List.find?_nil, Option.map_none']

/-- With success returns disabled the table stays empty for the whole
run. -/
theorem producerRun_false_table (events : List ProducerEvent) :
    (producerRun false events).table = [] := by
  have hgen : ∀ st, st.table = [] →
      (events.foldl (producerStep false) st).table = [] := by
    induction events with
    | nil => intro st h; exact h
    | cons e es ih => intro st h; exact ih _ (producerStep_false_table st e h)
  exact hgen _ rfl

/-- C7: the async-producer correlation table — with success returns
enabled each input inserts exactly one entry keyed by its span's spanID
and finishes nothing; a matching success or error event removes that
entry and finishes its span; no span is ever finished twice over any
event sequence; with success returns disabled the span is finished
immediately and the table stays empty. -/
theorem wrapAsyncProducer_correlation (returnSuccesses : Bool)
    (events : List ProducerEvent) :
    (∀ (st : ProducerState) (sid : Nat),
      (producerStep true st (.input sid)).table =
          mapInsert sid st.nextIdx st.table ∧
      mapGet sid (producerStep true st (.input sid)).table =
          some st.nextIdx ∧
      ((producerStep true st (.input sid)).table.filter
          (fun e => e.1 == sid)) = [(sid, st.nextIdx)] ∧
      (producerStep true st (.input sid)).finishes = st.finishes) ∧
    (∀ (st : ProducerState) (sid idx : Nat), mapGet sid st.table = some idx →
      (producerStep returnSuccesses st (.success (some sid))).table =
          mapDelete sid st.table ∧
      mapGet sid (producerStep returnSuccesses st (.success (some sid))).table =
          none ∧
      (producerStep returnSuccesses st (.success (some sid))).finishes =
          st.finishes ++ [idx] ∧
      (producerStep returnSuccesses st (.failure (some sid))).finishes =
          st.finishes ++ [idx]) ∧
    (producerRun returnSuccesses events).finishes.Nodup ∧
    (∀ (st : ProducerState) (sid : Nat),
      (producerStep false st (.input sid)).finishes =
          st.finishes ++ [st.nextIdx] ∧
      (producerStep false st (.input sid)).table = st.table) ∧
    (producerRun false events).table = [] := by
  refine ⟨?_, ?_, (producerRun_inv returnSuccesses events).1, ?_,
    producerRun_false_table events⟩
  · intro st sid
    refine ⟨rfl, ?_, ?_, rfl⟩
    · exact mapGet_mapInsert sid st.nextIdx st.table
    · exact mapInsert_filter_key sid st.nextIdx st.table
  · intro st sid idx hget
    refine ⟨?_, ?_, ?_, ?_⟩ <;> simp only [producerStep, hget]
    · exact mapGet_mapDelete sid st.table
  · intro st sid
    exact ⟨rfl, rfl⟩

end DDTrace
